import Mathlib

/-!
Verification development for the isoAdvector interface-advection core
(`src/OpenFOAM/src/isoAdvection/isoAdvection.C` / `.H`).

The scalar arithmetic of the solver is embedded over the exact rationals
`ℚ`; machine `scalar` values become `ℚ`, and fields indexed by cell/face
labels become total functions `ℕ → ℚ`.  The external cutting engine
(`isoCutCell` / `isoCutFace`) is out of the core's scope and enters as
explicit parameters.  The `while` loop of `boundFromAbove` is embedded
with an explicit fuel argument; every theorem about it holds for every
fuel value, which captures "after any number of iterations".
-/

namespace IsoAdv

/-- OpenFOAM constant SMALL for double-precision scalars (1.0e-15),
embedded as an exact rational. -/
def SMALL : ℚ := 1 / 10 ^ 15

/-- The threshold `10*SMALL` used by the downwind-face tests of
`timeIntegratedFlux` / `setDownwindFaces`, and as the tolerance `aTol`
of `boundFromAbove`. -/
def bTol : ℚ := 10 * SMALL

/-- The tolerance `aTol = 1.0e-12` of `limitFluxes`, used for the global
overshoot/undershoot tests. -/
def lTol : ℚ := 1 / 10 ^ 12

/-- OpenFOAM `pos0`: 1 for a nonnegative argument, 0 otherwise. -/
def pos0 (x : ℚ) : ℚ := if 0 ≤ x then 1 else 0

/-- OpenFOAM `neg0`: 1 for a nonpositive argument, 0 otherwise. -/
def neg0 (x : ℚ) : ℚ := if x ≤ 0 then 1 else 0

/-- OpenFOAM `sign`: 1 for a nonnegative argument, -1 otherwise. -/
def signQ (x : ℚ) : ℚ := if 0 ≤ x then 1 else -1

/-- Pointwise update of a face-indexed rational field (models writing one
entry of a `surfaceScalarField`). -/
def updF (g : ℕ → ℚ) (i : ℕ) (v : ℚ) : ℕ → ℚ := fun j => if j = i then v else g j

/-- Pointwise update of a cell-indexed boolean flag list (models writing
one entry of a `DynamicList<bool>`). -/
def updB (g : ℕ → Bool) (i : ℕ) (v : Bool) : ℕ → Bool := fun j => if j = i then v else g j

/-- Unstructured mesh connectivity and measures, as read by the advection
core: faces with index `< nInternalFaces` are internal and have both an
owner and a neighbour cell; the remaining faces are boundary faces with
an owner only.  `cellFaces` is `mesh.cells()`, `cellCells` is
`mesh.cellCells()` and `vol` is `mesh.cellVolumes()`. -/
structure Mesh where
  nCells : ℕ
  nInternalFaces : ℕ
  owner : ℕ → ℕ
  neighbour : ℕ → ℕ
  cellFaces : ℕ → List ℕ
  cellCells : ℕ → List ℕ
  vol : ℕ → ℚ

/-- `isoAdvection::isASurfaceCell`: the fraction lies strictly inside the
band `(surfCellTol, 1 - surfCellTol)`. -/
def isASurfaceCell (surfCellTol a : ℚ) : Bool :=
  decide (surfCellTol < a) && decide (a < 1 - surfCellTol)

/-- `isoAdvection::setDownwindFaces`: faces of `celli` through which the
bulk flux leaves the cell, with the `10*SMALL` noise threshold. -/
def setDownwindFaces (m : Mesh) (phi : ℕ → ℚ) (celli : ℕ) : List ℕ :=
  (m.cellFaces celli).filter fun facei =>
    if m.owner facei = celli then decide (bTol < phi facei)
    else decide (phi facei < -bTol)

/-- `isoAdvection::netFlux`: signed sum of the face transports over the
faces of `celli`, owner-leaving positive. -/
def netFlux (m : Mesh) (dVf : ℕ → ℚ) (celli : ℕ) : ℚ :=
  ((m.cellFaces celli).map fun facei =>
    if m.owner facei = celli then dVf facei else -dVf facei).sum

/-- Working state of `boundFromAbove`: the transport field being
corrected, the `correctedFaces` list and the `cellIsBounded_` flags. -/
structure BState where
  dVf : ℕ → ℚ
  corrected : List ℕ
  bounded : ℕ → Bool

/-- The eligibility pass of one `while` iteration of `boundFromAbove`:
the downwind faces of `celli` whose remaining transport capacity
`mag(phi*dt - dVf)` relative to the cell volume exceeds `aTol`, together
with their bulk flux (`phi` list) and capacity (`dVfmax` list).  The
source builds the three parallel `DynamicList`s in a single pass; the
entries are exactly this filter-and-map. -/
def eligEntries (m : Mesh) (phi : ℕ → ℚ) (dt : ℚ) (celli : ℕ) (dVf : ℕ → ℚ) :
    List (ℕ × ℚ × ℚ) :=
  ((setDownwindFaces m phi celli).filter fun facei =>
    decide (bTol < |phi facei * dt - dVf facei| / m.vol celli)).map
      fun facei => (facei, phi facei, |phi facei * dt - dVf facei|)

/-- `dVftot`: total eligible bulk transport magnitude `Σ mag(phi_i*dt)`
accumulated during the eligibility pass. -/
def dVftotOf (dt : ℚ) (elig : List (ℕ × ℚ × ℚ)) : ℚ :=
  (elig.map fun e => |e.2.1 * dt|).sum

/-- One step of the redistribution pass of `boundFromAbove`
(the `forAll(facesToPassFluidThrough, fi)` loop body): compute the
proportional share, count whether the face could take it
(`pos0(dVfmax - fluidToPassThroughFace)`), clamp to the face capacity and
add the clamped amount with the sign of `phi`; on the first `while`
iteration the face is recorded in `correctedFaces`. -/
def distStep (dt fluidToPassOn dVftot : ℚ) (firstLoop : Bool)
    (acc : BState × ℕ) (e : ℕ × ℚ × ℚ) : BState × ℕ :=
  let st := acc.1
  let facei := e.1
  let phif := e.2.1
  let mxf := e.2.2
  let share := fluidToPassOn * |phif * dt| / dVftot
  let n := acc.2 + (if 0 ≤ mxf - share then 1 else 0)
  let c := min share mxf
  let newVal := st.dVf facei + signQ phif * c
  ({ st with
      dVf := updF st.dVf facei newVal
      corrected := if firstLoop then st.corrected ++ [facei] else st.corrected }, n)

/-- The body of one `while` iteration of `boundFromAbove` for cell
`celli`: mark the cell bounded, run the eligibility pass, redistribute
the surplus `fluidToPassOn = overshoot*V`, and recompute the overshoot
from the updated transport.  Returns the new state, the recomputed
overshoot, and `nFacesToPassFluidThrough`. -/
def boundIterBody (m : Mesh) (phi : ℕ → ℚ) (dt : ℚ) (alpha1 : ℕ → ℚ)
    (celli : ℕ) (overshoot : ℚ) (firstLoop : Bool) (s : BState) :
    BState × ℚ × ℕ :=
  let Vi := m.vol celli
  let fluidToPassOn := overshoot * Vi
  let s0 : BState := { s with bounded := updB s.bounded celli true }
  let elig := eligEntries m phi dt celli s.dVf
  let dVftot := dVftotOf dt elig
  let r := elig.foldl (distStep dt fluidToPassOn dVftot firstLoop) (s0, 0)
  let alpha1New := alpha1 celli - netFlux m r.1.dVf celli / Vi
  (r.1, alpha1New - 1, r.2)

/-- The `while (alphaOvershoot > aTol && nFacesToPassFluidThrough > 0)`
loop of `boundFromAbove`, with explicit fuel.  The loop provably needs at
most one iteration more than the number of downwind faces, so every fuel
value at least that large yields the loop's exit state; all invariants
are proved for every fuel value. -/
def boundCellLoop (m : Mesh) (phi : ℕ → ℚ) (dt : ℚ) (alpha1 : ℕ → ℚ)
    (celli : ℕ) : ℕ → Bool → ℚ → ℕ → BState → BState
  | 0, _, _, _, s => s
  | fuel + 1, firstLoop, overshoot, nF, s =>
    if bTol < overshoot ∧ 0 < nF then
      let r := boundIterBody m phi dt alpha1 celli overshoot firstLoop s
      boundCellLoop m phi dt alpha1 celli fuel false r.2.1 r.2.2 r.1
    else s

/-- Per-cell step of `boundFromAbove`: candidate cells
(`checkBounding_[celli]`) get their initial overshoot computed and the
redistribution loop run (`nFacesToPassFluidThrough` enters as 1). -/
def boundCellStep (m : Mesh) (phi : ℕ → ℚ) (dt : ℚ) (checkBounding : ℕ → Bool)
    (alpha1 : ℕ → ℚ) (fuel : ℕ) (s : BState) (celli : ℕ) : BState :=
  if checkBounding celli then
    let Vi := m.vol celli
    let alpha1New := alpha1 celli - netFlux m s.dVf celli / Vi
    boundCellLoop m phi dt alpha1 celli fuel true (alpha1New - 1) 1 s
  else s

/-- `isoAdvection::boundFromAbove` on the internal field: loop over the
cells of the `alpha1` field, redistributing surplus transport for every
bounding candidate.  `correctedFaces` starts cleared; `cellIsBounded_`
is cleared by `limitFluxes` before the passes and is diagnostic only. -/
def boundFromAbove (m : Mesh) (phi : ℕ → ℚ) (dt : ℚ) (checkBounding : ℕ → Bool)
    (alpha1 : ℕ → ℚ) (fuel : ℕ) (dVf0 : ℕ → ℚ) : BState :=
  (List.range m.nCells).foldl
    (boundCellStep m phi dt checkBounding alpha1 fuel)
    { dVf := dVf0, corrected := [], bounded := fun _ => false }

/-- `fvc::surfaceIntegrate` of a face transport field at a cell: the
signed face sum divided by the cell volume. -/
def surfaceIntegrate (m : Mesh) (dVf : ℕ → ℚ) (celli : ℕ) : ℚ :=
  netFlux m dVf celli / m.vol celli

/-- `gMax` over the cell values of a field (meshes are nonempty). -/
def gMaxCells (m : Mesh) (f : ℕ → ℚ) : ℚ :=
  ((List.range m.nCells).map f).foldl max (f 0)

/-- `gMin` over the cell values of a field (meshes are nonempty). -/
def gMinCells (m : Mesh) (f : ℕ → ℚ) : ℚ :=
  ((List.range m.nCells).map f).foldl min (f 0)

/-- The bound-from-above branch of one `limitFluxes` pass: run
`boundFromAbove` on a copy `dVfcorrected` of the transport field against
the real fraction, then merge exactly the faces in `correctedFaces` back
into the main transport field.  (`syncProcPatches` follows; on a
non-distributed run it changes nothing, see `syncProcPatches` below.) -/
def upperBoundBranch (m : Mesh) (phi : ℕ → ℚ) (dt : ℚ) (checkBounding : ℕ → Bool)
    (alpha1 : ℕ → ℚ) (fuel : ℕ) (dVf : ℕ → ℚ) : ℕ → ℚ :=
  let r := boundFromAbove m phi dt checkBounding alpha1 fuel dVf
  fun facei => if facei ∈ r.corrected then r.dVf facei else dVf facei

/-- The bound-from-below branch of one `limitFluxes` pass: run
`boundFromAbove` against the complementary fraction `alpha2 = 1 - alpha1`
on the complementary working transport `phi*dt - dVf`, then write every
corrected face back through `dVf_new = phi*dt - dVfcorrected`. -/
def lowerBoundBranch (m : Mesh) (phi : ℕ → ℚ) (dt : ℚ) (checkBounding : ℕ → Bool)
    (alpha1 : ℕ → ℚ) (fuel : ℕ) (dVf : ℕ → ℚ) : ℕ → ℚ :=
  let alpha2 : ℕ → ℚ := fun celli => 1 - alpha1 celli
  let dVfc0 : ℕ → ℚ := fun facei => phi facei * dt - dVf facei
  let r := boundFromAbove m phi dt checkBounding alpha2 fuel dVfc0
  fun facei => if facei ∈ r.corrected then phi facei * dt - r.dVf facei else dVf facei

/-- One pass of the `limitFluxes` bounding loop; `bAbove` and `bBelow`
are the values of the `maxAlphaMinus1 > aTol` and `minAlpha < -aTol`
tests evaluated by the pass. -/
def limitPass (m : Mesh) (phi : ℕ → ℚ) (dt : ℚ) (checkBounding : ℕ → Bool)
    (alpha1 : ℕ → ℚ) (fuel : ℕ) (bAbove bBelow : Bool) (dVf : ℕ → ℚ) : ℕ → ℚ :=
  let d1 := if bAbove then upperBoundBranch m phi dt checkBounding alpha1 fuel dVf else dVf
  if bBelow then lowerBoundBranch m phi dt checkBounding alpha1 fuel d1 else d1

/-- `isoAdvection::limitFluxes`: the projected fraction
`alphaNew = alpha1 - surfaceIntegrate(dVf)` and its global max/min are
computed once, before the pass loop; the loop then runs `nAlphaBounds`
passes whose branch guards reuse those initial values (the source never
updates `maxAlphaMinus1` / `minAlpha` inside the loop).  Besides the
final transport field, the embedding returns the per-pass values of the
two branch guards, so that invocation of the two inner routines is
observable.  The processor-patch synchronisation after each branch is
the identity on a non-distributed run. -/
def limitFluxes (m : Mesh) (phi : ℕ → ℚ) (dt : ℚ) (checkBounding : ℕ → Bool)
    (alpha1 : ℕ → ℚ) (fuel nAlphaBounds : ℕ) (dVf0 : ℕ → ℚ) :
    (ℕ → ℚ) × List (Bool × Bool) :=
  let alphaNew : ℕ → ℚ := fun celli => alpha1 celli - surfaceIntegrate m dVf0 celli
  let maxAlphaMinus1 := gMaxCells m alphaNew - 1
  let minAlpha := gMinCells m alphaNew
  (List.range nAlphaBounds).foldl
    (fun st _ =>
      let bA := decide (lTol < maxAlphaMinus1)
      let bB := decide (minAlpha < -lTol)
      (limitPass m phi dt checkBounding alpha1 fuel bA bB st.1, st.2 ++ [(bA, bB)]))
    (dVf0, [])

/-- State threaded through `timeIntegratedFlux`: the transport field
`dVf_` and the candidate flags `checkBounding_`. -/
structure TIFState where
  dVf : ℕ → ℚ
  cb : ℕ → Bool

/-- The candidate marking done for the opposite-side cell of an internal
face of a cut surface cell: `checkBounding_[otherCell] = true` followed
by `checkBounding_[n] = true` for each mesh neighbour `n` of
`otherCell` (the `cellCells` loop). -/
def markNeighbours (m : Mesh) (otherCell : ℕ) (cb : ℕ → Bool) : ℕ → Bool :=
  (m.cellCells otherCell).foldl (fun cb2 n => updB cb2 n true) (updB cb otherCell true)

/-- One step of the `forAll(celliFaces, fi)` loop of
`timeIntegratedFlux` for a cut surface cell: for an internal face,
compute the downwind test, write the engine's time-integrated transport
on a downwind face, and mark the opposite-side cell together with its
mesh neighbours as bounding candidates regardless of the downwind
status.  `engineFace celli facei` stands for
`isoCutFace_.timeIntegratedFaceFlux(facei, x0, n0, Un0, f0, dt, phi,
magSf)` of the external cutting engine.  A boundary face only defers its
transport computation (the `bsFaces_` lists) and never touches
`checkBounding_`; the deferred boundary transport and the
processor-patch bookkeeping are modelled with `syncProcPatches`
below. -/
def tifFaceStep (m : Mesh) (phi : ℕ → ℚ) (engineFace : ℕ → ℕ → ℚ) (celli : ℕ)
    (st2 : TIFState) (facei : ℕ) : TIFState :=
  if facei < m.nInternalFaces then
    let isDownwindFace :=
      if m.owner facei = celli then decide (bTol < phi facei)
      else decide (phi facei < -bTol)
    let otherCell := if m.owner facei = celli then m.neighbour facei else m.owner facei
    let st3 :=
      if isDownwindFace then
        { st2 with dVf := updF st2.dVf facei (engineFace celli facei) }
      else st2
    { st3 with cb := markNeighbours m otherCell st3.cb }
  else st2

/-- The face loop of `timeIntegratedFlux` for one cut surface cell. -/
def tifCellFaces (m : Mesh) (phi : ℕ → ℚ) (engineFace : ℕ → ℕ → ℚ)
    (celli : ℕ) (st : TIFState) : TIFState :=
  (m.cellFaces celli).foldl (tifFaceStep m phi engineFace celli) st

/-- One step of the cell loop of `timeIntegratedFlux`: every surface
cell is marked as a bounding candidate; the face processing (transport
estimation and the two-ring candidate extension) runs only when the
cutting engine reports the cell as cut (`cellStatus = 0` from
`vofCutCell`); a surface cell with any other status is skipped
(`if (cellStatus != 0) continue`). -/
def tifCellStep (m : Mesh) (surfCellTol : ℚ) (alpha1 : ℕ → ℚ)
    (cutStatus : ℕ → ℤ) (phi : ℕ → ℚ) (engineFace : ℕ → ℕ → ℚ)
    (st : TIFState) (celli : ℕ) : TIFState :=
  if isASurfaceCell surfCellTol (alpha1 celli) then
    let st1 : TIFState := { st with cb := updB st.cb celli true }
    if cutStatus celli = 0 then tifCellFaces m phi engineFace celli st1 else st1
  else st

/-- The cell loop of `isoAdvection::timeIntegratedFlux`: candidate flags
are reset to false at the start of the call (`clearIsoFaceData`), and
every cell of the fraction field is processed in order.  `cutStatus` is
the external engine's per-cell status (-1 below, 0 cut, 1 above). -/
def timeIntegratedFluxMarking (m : Mesh) (surfCellTol : ℚ) (alpha1 : ℕ → ℚ)
    (cutStatus : ℕ → ℤ) (phi : ℕ → ℚ) (engineFace : ℕ → ℕ → ℚ)
    (dVf0 : ℕ → ℚ) : TIFState :=
  (List.range m.nCells).foldl
    (tifCellStep m surfCellTol alpha1 cutStatus phi engineFace)
    { dVf := dVf0, cb := fun _ => false }

/-- The candidate contribution of one internal face of cell `celli` to
cell `c`: `c` is the opposite-side cell of the face, or one of its mesh
neighbours. -/
def faceContrib (m : Mesh) (celli facei c : ℕ) : Bool :=
  decide (facei < m.nInternalFaces) &&
    (let o := if m.owner facei = celli then m.neighbour facei else m.owner facei
     decide (c = o) || decide (c ∈ m.cellCells o))

/-- The candidate contribution of processing cell `celli` to cell `c`,
as the code computes it: surface cells mark themselves, and cut surface
cells additionally mark through each of their internal faces. -/
def cellContrib (m : Mesh) (surfCellTol : ℚ) (alpha1 : ℕ → ℚ)
    (cutStatus : ℕ → ℤ) (celli c : ℕ) : Bool :=
  isASurfaceCell surfCellTol (alpha1 celli) &&
    (decide (c = celli) ||
      (decide (cutStatus celli = 0) &&
        (m.cellFaces celli).any fun facei => faceContrib m celli facei c))

/-- The BoundingCandidateSet as the code computes it: the two-ring
extension applies only to surface cells whose cutting status is cut. -/
def codeCandidate (m : Mesh) (surfCellTol : ℚ) (alpha1 : ℕ → ℚ)
    (cutStatus : ℕ → ℤ) (c : ℕ) : Bool :=
  (List.range m.nCells).any fun s => cellContrib m surfCellTol alpha1 cutStatus s c

/-- Modelled from the spec: the BoundingCandidateSet membership exactly
as the claim words it — every surface cell, every opposite-side cell
across an internal face of a surface cell regardless of downwind status,
and every mesh-neighbour of such an opposite-side cell — with no
condition on the cutting status of the surface cell. -/
def claimCandidate (m : Mesh) (surfCellTol : ℚ) (alpha1 : ℕ → ℚ) (c : ℕ) : Bool :=
  (List.range m.nCells).any fun s =>
    isASurfaceCell surfCellTol (alpha1 s) &&
      (decide (c = s) || (m.cellFaces s).any fun facei => faceContrib m s facei c)

/-- State of the processor-patch exchange: the boundary transport values
(`dVf.boundaryFieldRef()[patchi][facei]`, indexed by patch and
patch-local face) and the pending lists
`surfaceCellFacesOnProcPatches_`. -/
structure PSyncState where
  localFlux : ℕ → ℕ → ℚ
  pending : ℕ → List ℕ

/-- Pointwise update of a patch-and-face indexed field. -/
def updF2 (g : ℕ → ℕ → ℚ) (p f : ℕ) (v : ℚ) : ℕ → ℕ → ℚ :=
  fun p' f' => if p' = p ∧ f' = f then v else g p' f'

/-- Receive-and-combine for one processor patch: each received pair
`(faceIDs[i], nbrdVfs[i])` overwrites the local boundary transport with
the negated remote value (`localFlux[facei] = -nbrdVfs[i]`). -/
def syncPatchStep (received : ℕ → List ℕ × List ℚ) (st : PSyncState)
    (patchi : ℕ) : PSyncState :=
  { st with
      localFlux :=
        ((received patchi).1.zip (received patchi).2).foldl
          (fun lf pr => updF2 lf patchi pr.1 (-pr.2)) st.localFlux }

/-- `isoAdvection::syncProcPatches`: on a parallel run
(`Pstream::parRun()`), receive-and-combine runs for every processor
patch, and afterwards every pending list is cleared; otherwise the whole
call is skipped.  The message transport itself is external
(`PstreamBuffers`); the received data enters as the `received`
parameter, one `(faceIDs, nbrdVfs)` pair of lists per patch. -/
def syncProcPatches (parRun : Bool) (procPatchLabels : List ℕ)
    (received : ℕ → List ℕ × List ℚ) (s : PSyncState) : PSyncState :=
  if parRun then
    { procPatchLabels.foldl (syncPatchStep received) s with pending := fun _ => [] }
  else s

/-- The snap step of `isoAdvection::applyBruteForceBounding`: executed
only when `snapTol > 0`, it maps the fraction through
`a*pos0(a - snapTol)*neg0(a - (1 - snapTol)) + pos0(a - (1 - snapTol))`. -/
def snapAlpha (snapTol a : ℚ) : ℚ :=
  if 0 < snapTol then
    a * pos0 (a - snapTol) * neg0 (a - (1 - snapTol)) + pos0 (a - (1 - snapTol))
  else a

/-- The clip step of `isoAdvection::applyBruteForceBounding`: executed
when `clip` is true, it clamps the fraction into `[0, 1]`. -/
def clipAlpha (clip : Bool) (a : ℚ) : ℚ :=
  if clip then min 1 (max 0 a) else a

/-- `isoAdvection::applyBruteForceBounding` on one cell value: the snap
step followed by the clip step. -/
def applyBruteForceBounding (snapTol : ℚ) (clip : Bool) (a : ℚ) : ℚ :=
  clipAlpha clip (snapAlpha snapTol a)

/-- A geometric vector (`Foam::vector`), embedded with real components
since the geometry involves square roots. -/
structure Vec3 where
  x : ℝ
  y : ℝ
  z : ℝ

/-- The zero vector `vector::zero` / `point::zero`. -/
noncomputable def vzero : Vec3 := ⟨0, 0, 0⟩

/-- Componentwise vector difference. -/
noncomputable def vsub (a b : Vec3) : Vec3 := ⟨a.x - b.x, a.y - b.y, a.z - b.z⟩

/-- Componentwise division of a vector by a scalar (`v / s`). -/
noncomputable def sdiv (v : Vec3) (s : ℝ) : Vec3 := ⟨v.x / s, v.y / s, v.z / s⟩

/-- OpenFOAM `mag` of a vector: the Euclidean norm. -/
noncomputable def mag3 (v : Vec3) : ℝ := Real.sqrt (v.x ^ 2 + v.y ^ 2 + v.z ^ 2)

/-- The denominator of the isoface-normal normalisation
`n0 /= mag(n0)` in `timeIntegratedFlux` (and in `getNormal`): the bare
magnitude, with no additive epsilon. -/
noncomputable def isoNormalDenom (n0 : Vec3) : ℝ := mag3 n0

/-- The denominator of the vertex-weight computation
`w = 1.0/mag(vertex - cellCentre)` in `normaliseAndSmooth`: the bare
distance, with no additive epsilon. -/
noncomputable def vertexWeightDenom (vertex cellCentre : Vec3) : ℝ :=
  mag3 (vsub vertex cellCentre)

/-- The denominator pattern of the three guarded divisions in
`normaliseAndSmooth` (`cellNIn /= (mag(cellNIn) + SMALL)` etc.):
magnitude plus the additive SMALL guard. -/
noncomputable def smoothDenom (v : Vec3) : ℝ := mag3 v + (SMALL : ℚ)

/-- The per-cell result of the external cutting engine
(`isoCutCell::vofCutCell` and the subsequent accessors): the status
(-1 below / 0 cut / 1 above), the isoface area vector
(`isoFaceArea()`) and the isoface centre (`isoFaceCentre()`).  The
engine is required by the external-interface contract to be
deterministic, so one record per cell suffices. -/
structure CutEngine where
  status : ℕ → ℤ
  isoFaceArea : ℕ → Vec3
  isoFaceCentre : ℕ → Vec3

/-- `isoAdvection::cellIsCut`: the cutting status of the cell is 0. -/
def cellIsCut (e : CutEngine) (celli : ℕ) : Bool := decide (e.status celli = 0)

/-- `isoAdvection::getNormal`: for a cut cell, the isoface area vector
divided by its own magnitude; otherwise `vector::zero`. -/
noncomputable def getNormal (e : CutEngine) (celli : ℕ) : Vec3 :=
  if cellIsCut e celli then sdiv (e.isoFaceArea celli) (mag3 (e.isoFaceArea celli))
  else vzero

/-- `isoAdvection::getSurfaceArea`: the isoface area vector for a cut
cell, `vector::zero` otherwise. -/
noncomputable def getSurfaceArea (e : CutEngine) (celli : ℕ) : Vec3 :=
  if cellIsCut e celli then e.isoFaceArea celli else vzero

/-- `isoAdvection::getIsoFaceCentre`: the isoface centre for a cut cell,
`point::zero` otherwise. -/
noncomputable def getIsoFaceCentre (e : CutEngine) (celli : ℕ) : Vec3 :=
  if cellIsCut e celli then e.isoFaceCentre celli else vzero

/-- Sign-agreement range invariant for a face transport `x` with bulk
transport budget `b = phi*dt`: `x` lies between `0` and `b`.  This is
the "dVf has same sign as phi and mag(dVf) <= mag(phi*dt)" property the
source comments assume for the working transport field. -/
def inRange (b x : ℚ) : Prop := min 0 b ≤ x ∧ x ≤ max 0 b

instance (b x : ℚ) : Decidable (inRange b x) := by
  unfold inRange; infer_instance

/-! ### Concrete two-cell fixtures used by witnesses and counterexamples -/

/-- A two-cell mesh with a single (internal) face: cell 0 owns face 0,
cell 1 is its neighbour, unit volumes. -/
def mesh2 : Mesh where
  nCells := 2
  nInternalFaces := 1
  owner := fun _ => 0
  neighbour := fun _ => 1
  cellFaces := fun _ => [0]
  cellCells := fun c => if c = 0 then [1] else [0]
  vol := fun _ => 1

/-- Uniform unit flux on `mesh2`. -/
def phiW : ℕ → ℚ := fun _ => 1

/-- Overshooting fraction field on `mesh2` (cell 0 projects above 1). -/
def alphaW : ℕ → ℚ := fun c => if c = 0 then 13 / 10 else 0

/-- Small uniform flux on `mesh2`, used by the complementary-field
counterexample. -/
def phiCounter : ℕ → ℚ := fun _ => 1 / 10

/-- Fraction field with an undershooting cell (cell 0 projects below 0)
on `mesh2`. -/
def alphaCounter : ℕ → ℚ := fun c => if c = 0 then -1 else 1 / 2

/-- A transport field that satisfies the capacity invariant for
`phiCounter` and `dt = 1` but has the opposite sign of the flux. -/
def dVfCounter : ℕ → ℚ := fun _ => -(1 / 10)

/-- Fraction field on `mesh2` making cell 0 a surface cell. -/
def alphaSurf : ℕ → ℚ := fun c => if c = 0 then 1 / 2 else 0

/-- The default surface-cell band tolerance `surfCellTol = 1e-8`. -/
def surfTolW : ℚ := 1 / 10 ^ 8

/-- A cutting-engine status refusing to cut any cell (status 1:
everywhere above), as allowed for a near-tolerance surface cell. -/
def cutNone : ℕ → ℤ := fun _ => 1

/-- Initial working state for concrete evaluations: zero transport,
no corrected faces, no bounded cells. -/
def sW : BState := { dVf := fun _ => 0, corrected := [], bounded := fun _ => false }

/-- A concrete cutting engine for the C10 witness: cell 0 is cut with a
unit-x area vector, every other cell is uncut. -/
noncomputable def cutW : CutEngine where
  status := fun c => if c = 0 then 0 else 1
  isoFaceArea := fun _ => ⟨1, 0, 0⟩
  isoFaceCentre := fun _ => ⟨0, 0, 0⟩

/-! ### Basic facts about the tolerances and the per-face update -/

lemma bTol_pos : 0 < bTol := by norm_num [bTol, SMALL]

lemma lTol_pos : 0 < lTol := by norm_num [lTol]

lemma inRange_bounds {b x : ℚ} (h : inRange b x) :
    (0 ≤ b → 0 ≤ x ∧ x ≤ b) ∧ (b ≤ 0 → b ≤ x ∧ x ≤ 0) := by
  obtain ⟨h1, h2⟩ := h
  constructor
  · intro hb
    rw [min_eq_left hb] at h1
    rw [max_eq_right hb] at h2
    exact ⟨h1, h2⟩
  · intro hb
    rw [min_eq_right hb] at h1
    rw [max_eq_left hb] at h2
    exact ⟨h1, h2⟩

lemma inRange_of_bounds {b x : ℚ} (hb : 0 ≤ b → 0 ≤ x ∧ x ≤ b)
    (hb' : b ≤ 0 → b ≤ x ∧ x ≤ 0) : inRange b x := by
  rcases le_or_lt 0 b with h | h
  · obtain ⟨u, v⟩ := hb h
    exact ⟨le_trans (min_le_left _ _) u, le_trans v (le_max_right _ _)⟩
  · obtain ⟨u, v⟩ := hb' (le_of_lt h)
    exact ⟨le_trans (min_le_right _ _) u, le_trans v (le_max_left _ _)⟩

lemma inRange_cap {b x : ℚ} (h : inRange b x) : |x| ≤ |b| := by
  rcases le_or_lt 0 b with hb | hb
  · obtain ⟨u, v⟩ := (inRange_bounds h).1 hb
    rw [abs_of_nonneg u, abs_of_nonneg hb]; exact v
  · obtain ⟨u, v⟩ := (inRange_bounds h).2 (le_of_lt hb)
    rw [abs_of_nonpos v, abs_of_nonpos (le_of_lt hb)]; linarith

lemma inRange_compl {b x : ℚ} (h : inRange b x) : inRange b (b - x) := by
  refine inRange_of_bounds (fun hb => ?_) (fun hb => ?_)
  · obtain ⟨u, v⟩ := (inRange_bounds h).1 hb
    exact ⟨by linarith, by linarith⟩
  · obtain ⟨u, v⟩ := (inRange_bounds h).2 hb
    exact ⟨by linarith, by linarith⟩

lemma inRange_mag_sub {b x : ℚ} (h : inRange b x) : |b - x| = |b| - |x| := by
  rcases le_or_lt 0 b with hb | hb
  · obtain ⟨u, v⟩ := (inRange_bounds h).1 hb
    rw [abs_of_nonneg (by linarith : (0:ℚ) ≤ b - x), abs_of_nonneg hb,
      abs_of_nonneg u]
  · obtain ⟨u, v⟩ := (inRange_bounds h).2 (le_of_lt hb)
    rw [abs_of_nonpos (by linarith : b - x ≤ 0), abs_of_nonpos (le_of_lt hb),
      abs_of_nonpos v]
    ring

/-- Adding `sign(phi)*c` with `0 ≤ c ≤ mag(phi*dt - x)` cannot push the
transport magnitude past the bulk budget `mag(phi*dt)`. -/
lemma update_cap {p d x c : ℚ} (hd : 0 ≤ d) (hx : |x| ≤ |p * d|)
    (hc0 : 0 ≤ c) (hc : c ≤ |p * d - x|) : |x + signQ p * c| ≤ |p * d| := by
  rcases le_or_lt 0 p with hp | hp
  · have hb : 0 ≤ p * d := mul_nonneg hp hd
    have hxb := abs_le.mp hx
    rw [abs_of_nonneg hb] at hxb ⊢
    rw [abs_of_nonneg (by linarith [hxb.2] : (0:ℚ) ≤ p * d - x)] at hc
    rw [signQ, if_pos hp, abs_le]
    constructor <;> linarith [hxb.1, hxb.2]
  · have hb : p * d ≤ 0 := mul_nonpos_iff.mpr (Or.inr ⟨le_of_lt hp, hd⟩)
    have hxb := abs_le.mp hx
    rw [abs_of_nonpos hb] at hxb ⊢
    rw [abs_of_nonpos (by linarith [hxb.1] : p * d - x ≤ 0)] at hc
    rw [signQ, if_neg (not_le.mpr hp), abs_le]
    constructor <;> linarith [hxb.1, hxb.2]

/-- The same update also preserves sign agreement with the bulk flux. -/
lemma update_inRange {p d x c : ℚ} (hd : 0 ≤ d) (hx : inRange (p * d) x)
    (hc0 : 0 ≤ c) (hc : c ≤ |p * d - x|) : inRange (p * d) (x + signQ p * c) := by
  obtain ⟨h1, h2⟩ := hx
  rcases le_or_lt 0 p with hp | hp
  · have hb : 0 ≤ p * d := mul_nonneg hp hd
    rw [min_eq_left hb] at h1
    rw [max_eq_right hb] at h2
    rw [abs_of_nonneg (by linarith : (0:ℚ) ≤ p * d - x)] at hc
    rw [signQ, if_pos hp]
    exact ⟨le_trans (min_le_left _ _) (by linarith),
      le_trans (by linarith) (le_max_right _ _)⟩
  · have hb : p * d ≤ 0 := mul_nonpos_iff.mpr (Or.inr ⟨le_of_lt hp, hd⟩)
    rw [min_eq_right hb] at h1
    rw [max_eq_left hb] at h2
    rw [abs_of_nonpos (by linarith : p * d - x ≤ 0)] at hc
    rw [signQ, if_neg (not_le.mpr hp)]
    exact ⟨le_trans (min_le_right _ _) (by linarith),
      le_trans (by linarith) (le_max_left _ _)⟩

/-- Adding `sign(phi)` times the full remaining capacity saturates the
face exactly at its bulk transport `phi*dt`. -/
lemma update_saturate {p d x : ℚ} (hd : 0 ≤ d) (hx : inRange (p * d) x) :
    x + signQ p * |p * d - x| = p * d := by
  obtain ⟨h1, h2⟩ := hx
  rcases le_or_lt 0 p with hp | hp
  · have hb : 0 ≤ p * d := mul_nonneg hp hd
    rw [min_eq_left hb] at h1
    rw [max_eq_right hb] at h2
    rw [signQ, if_pos hp, abs_of_nonneg (by linarith : (0:ℚ) ≤ p * d - x)]
    ring
  · have hb : p * d ≤ 0 := mul_nonpos_iff.mpr (Or.inr ⟨le_of_lt hp, hd⟩)
    rw [min_eq_right hb] at h1
    rw [max_eq_left hb] at h2
    rw [signQ, if_neg (not_le.mpr hp), abs_of_nonpos (by linarith : p * d - x ≤ 0)]
    ring

/-! ### Generic fold helpers -/

lemma foldl_preserve {σ α : Type} (P : σ → Prop) (f : σ → α → σ)
    (h : ∀ s a, P s → P (f s a)) :
    ∀ (L : List α) (s : σ), P s → P (L.foldl f s) := by
  intro L
  induction L with
  | nil => intro s hs; exact hs
  | cons a L ih => intro s hs; exact ih _ (h s a hs)

/-! ### The redistribution fold of `boundFromAbove` -/

lemma distFold_dVf_untouched (dt FP T : ℚ) (fl : Bool) :
    ∀ (L : List (ℕ × ℚ × ℚ)) (acc : BState × ℕ) (f : ℕ),
      f ∉ L.map (fun e => e.1) →
      ((L.foldl (distStep dt FP T fl) acc).1).dVf f = acc.1.dVf f := by
  intro L
  induction L with
  | nil => intro acc f _; rfl
  | cons e L ih =>
    intro acc f hf
    simp only [List.map_cons, List.mem_cons, not_or] at hf
    rw [List.foldl_cons, ih _ f hf.2]
    simp [distStep, updF, hf.1]

lemma distFold_dVf_touched (dt FP T : ℚ) (fl : Bool) :
    ∀ (L : List (ℕ × ℚ × ℚ)) (acc : BState × ℕ) (e : ℕ × ℚ × ℚ),
      (L.map (fun e => e.1)).Nodup → e ∈ L →
      ((L.foldl (distStep dt FP T fl) acc).1).dVf e.1 =
        acc.1.dVf e.1 + signQ e.2.1 * min (FP * |e.2.1 * dt| / T) e.2.2 := by
  intro L
  induction L with
  | nil => intro _ e _ h; exact absurd h (List.not_mem_nil e)
  | cons e0 L ih =>
    intro acc e hnd he
    rw [List.map_cons, List.nodup_cons] at hnd
    rcases List.mem_cons.mp he with rfl | he'
    · rw [List.foldl_cons, distFold_dVf_untouched dt FP T fl L _ _ hnd.1]
      simp [distStep, updF]
    · rw [List.foldl_cons, ih _ e hnd.2 he']
      have hne : e.1 ≠ e0.1 := fun h =>
        hnd.1 (h ▸ List.mem_map_of_mem (fun e => e.1) he')
      simp [distStep, updF, hne]

lemma distFold_count (dt FP T : ℚ) (fl : Bool) :
    ∀ (L : List (ℕ × ℚ × ℚ)) (acc : BState × ℕ),
      (L.foldl (distStep dt FP T fl) acc).2 =
        acc.2 + L.countP (fun e => decide (0 ≤ e.2.2 - FP * |e.2.1 * dt| / T)) := by
  intro L
  induction L with
  | nil => intro acc; simp
  | cons e L ih =>
    intro acc
    rw [List.foldl_cons, ih, List.countP_cons]
    simp only [distStep]
    split
    · simp_all
      omega
    · simp_all

/-! ### Structure of the eligibility pass -/

lemma eligEntries_map_fst (m : Mesh) (phi : ℕ → ℚ) (dt : ℚ) (celli : ℕ) (dVf : ℕ → ℚ) :
    (eligEntries m phi dt celli dVf).map (fun e => e.1) =
      (setDownwindFaces m phi celli).filter
        (fun facei => decide (bTol < |phi facei * dt - dVf facei| / m.vol celli)) := by
  simp [eligEntries, List.map_map, Function.comp_def, List.map_id']

lemma mem_eligEntries {m : Mesh} {phi : ℕ → ℚ} {dt : ℚ} {celli : ℕ} {dVf : ℕ → ℚ}
    {e : ℕ × ℚ × ℚ} (he : e ∈ eligEntries m phi dt celli dVf) :
    e.1 ∈ setDownwindFaces m phi celli ∧ e.2.1 = phi e.1 ∧
      e.2.2 = |phi e.1 * dt - dVf e.1| ∧
      bTol < |phi e.1 * dt - dVf e.1| / m.vol celli := by
  obtain ⟨f, hf, rfl⟩ := List.mem_map.mp he
  have hf' := List.mem_filter.mp hf
  refine ⟨hf'.1, rfl, rfl, ?_⟩
  simpa using hf'.2

lemma eligEntries_mem_of {m : Mesh} {phi : ℕ → ℚ} {dt : ℚ} {celli : ℕ} {dVf : ℕ → ℚ}
    {f : ℕ} (hd : f ∈ setDownwindFaces m phi celli)
    (hc : bTol < |phi f * dt - dVf f| / m.vol celli) :
    (f, phi f, |phi f * dt - dVf f|) ∈ eligEntries m phi dt celli dVf :=
  List.mem_map_of_mem _ (List.mem_filter.mpr ⟨hd, by simpa using hc⟩)

lemma setDownwindFaces_nodup {m : Mesh} {phi : ℕ → ℚ} {celli : ℕ}
    (h : (m.cellFaces celli).Nodup) : (setDownwindFaces m phi celli).Nodup :=
  h.filter _

lemma eligEntries_ids_nodup {m : Mesh} {phi : ℕ → ℚ} {dt : ℚ} {celli : ℕ}
    {dVf : ℕ → ℚ} (h : (m.cellFaces celli).Nodup) :
    ((eligEntries m phi dt celli dVf).map (fun e => e.1)).Nodup := by
  rw [eligEntries_map_fst]
  exact (setDownwindFaces_nodup h).filter _

lemma setDownwindFaces_phi {m : Mesh} {phi : ℕ → ℚ} {celli : ℕ} {f : ℕ}
    (h : f ∈ setDownwindFaces m phi celli) : bTol < phi f ∨ phi f < -bTol := by
  have h2 := (List.mem_filter.mp h).2
  by_cases ho : m.owner f = celli
  · left; simpa [ho] using h2
  · right; simpa [ho] using h2

lemma dVftotOf_nonneg (dt : ℚ) (L : List (ℕ × ℚ × ℚ)) : 0 ≤ dVftotOf dt L := by
  apply List.sum_nonneg
  intro x hx
  obtain ⟨e, _, rfl⟩ := List.mem_map.mp hx
  exact abs_nonneg _

/-! ### Pointwise characterisation of one `while` iteration -/

lemma boundIterBody_dVf (m : Mesh) (phi : ℕ → ℚ) (dt : ℚ) (alpha1 : ℕ → ℚ)
    (celli : ℕ) (o : ℚ) (fl : Bool) (s : BState)
    (hnd : (m.cellFaces celli).Nodup) (f : ℕ) :
    (f ∈ (eligEntries m phi dt celli s.dVf).map (fun e => e.1) →
      (boundIterBody m phi dt alpha1 celli o fl s).1.dVf f =
        s.dVf f + signQ (phi f) *
          min (o * m.vol celli * |phi f * dt| /
              dVftotOf dt (eligEntries m phi dt celli s.dVf))
            |phi f * dt - s.dVf f|) ∧
    (f ∉ (eligEntries m phi dt celli s.dVf).map (fun e => e.1) →
      (boundIterBody m phi dt alpha1 celli o fl s).1.dVf f = s.dVf f) := by
  constructor
  · intro hf
    obtain ⟨e, he, hef⟩ := List.mem_map.mp hf
    subst hef
    obtain ⟨hdw, hphi, hmx, _⟩ := mem_eligEntries he
    show ((eligEntries m phi dt celli s.dVf).foldl
        (distStep dt (o * m.vol celli)
          (dVftotOf dt (eligEntries m phi dt celli s.dVf)) fl)
        ({ s with bounded := updB s.bounded celli true }, 0)).1.dVf e.1 = _
    rw [distFold_dVf_touched dt (o * m.vol celli)
      (dVftotOf dt (eligEntries m phi dt celli s.dVf)) fl
      (eligEntries m phi dt celli s.dVf) _ e (eligEntries_ids_nodup hnd) he]
    rw [hphi, hmx]
  · intro hf
    show ((eligEntries m phi dt celli s.dVf).foldl
        (distStep dt (o * m.vol celli)
          (dVftotOf dt (eligEntries m phi dt celli s.dVf)) fl)
        ({ s with bounded := updB s.bounded celli true }, 0)).1.dVf f = _
    rw [distFold_dVf_untouched dt (o * m.vol celli)
      (dVftotOf dt (eligEntries m phi dt celli s.dVf)) fl
      (eligEntries m phi dt celli s.dVf) _ f hf]

lemma boundIterBody_pointwise (m : Mesh) (phi : ℕ → ℚ) (dt : ℚ) (alpha1 : ℕ → ℚ)
    (celli : ℕ) (o : ℚ) (fl : Bool) (s : BState)
    (hnd : (m.cellFaces celli).Nodup) (ho : 0 ≤ o) (hV : 0 ≤ m.vol celli) (f : ℕ) :
    (boundIterBody m phi dt alpha1 celli o fl s).1.dVf f = s.dVf f ∨
    ∃ c : ℚ, 0 ≤ c ∧ c ≤ |phi f * dt - s.dVf f| ∧
      (boundIterBody m phi dt alpha1 celli o fl s).1.dVf f =
        s.dVf f + signQ (phi f) * c := by
  by_cases hf : f ∈ (eligEntries m phi dt celli s.dVf).map (fun e => e.1)
  · right
    refine ⟨_, ?_, min_le_right _ _,
      (boundIterBody_dVf m phi dt alpha1 celli o fl s hnd f).1 hf⟩
    apply le_min
    · exact div_nonneg (mul_nonneg (mul_nonneg ho hV) (abs_nonneg _))
        (dVftotOf_nonneg _ _)
    · exact abs_nonneg _
  · exact Or.inl ((boundIterBody_dVf m phi dt alpha1 celli o fl s hnd f).2 hf)

lemma boundIterBody_cap (m : Mesh) (phi : ℕ → ℚ) (dt : ℚ) (alpha1 : ℕ → ℚ)
    (celli : ℕ) (o : ℚ) (fl : Bool) (s : BState)
    (hd : 0 ≤ dt) (hnd : (m.cellFaces celli).Nodup) (ho : 0 ≤ o)
    (hV : 0 ≤ m.vol celli) (hcap : ∀ f, |s.dVf f| ≤ |phi f * dt|) :
    ∀ f, |(boundIterBody m phi dt alpha1 celli o fl s).1.dVf f| ≤ |phi f * dt| := by
  intro f
  rcases boundIterBody_pointwise m phi dt alpha1 celli o fl s hnd ho hV f with
    h | ⟨c, h0, h1, h2⟩
  · rw [h]; exact hcap f
  · rw [h2]; exact update_cap hd (hcap f) h0 h1

lemma boundIterBody_inRange (m : Mesh) (phi : ℕ → ℚ) (dt : ℚ) (alpha1 : ℕ → ℚ)
    (celli : ℕ) (o : ℚ) (fl : Bool) (s : BState)
    (hd : 0 ≤ dt) (hnd : (m.cellFaces celli).Nodup) (ho : 0 ≤ o)
    (hV : 0 ≤ m.vol celli) (hr : ∀ f, inRange (phi f * dt) (s.dVf f)) :
    ∀ f, inRange (phi f * dt)
      ((boundIterBody m phi dt alpha1 celli o fl s).1.dVf f) := by
  intro f
  rcases boundIterBody_pointwise m phi dt alpha1 celli o fl s hnd ho hV f with
    h | ⟨c, h0, h1, h2⟩
  · rw [h]; exact hr f
  · rw [h2]; exact update_inRange hd (hr f) h0 h1

/-! ### Preservation through the `while` loop and the cell loop -/

lemma boundCellLoop_cap (m : Mesh) (phi : ℕ → ℚ) (dt : ℚ) (alpha1 : ℕ → ℚ)
    (celli : ℕ) (hd : 0 ≤ dt) (hnd : (m.cellFaces celli).Nodup)
    (hV : 0 ≤ m.vol celli) :
    ∀ (fuel : ℕ) (fl : Bool) (o : ℚ) (n : ℕ) (s : BState),
      (∀ f, |s.dVf f| ≤ |phi f * dt|) →
      ∀ f, |(boundCellLoop m phi dt alpha1 celli fuel fl o n s).dVf f| ≤
        |phi f * dt| := by
  intro fuel
  induction fuel with
  | zero => intro fl o n s h f; exact h f
  | succ fuel ih =>
    intro fl o n s h f
    simp only [boundCellLoop]
    split
    · rename_i hg
      exact ih false _ _ _
        (boundIterBody_cap m phi dt alpha1 celli o fl s hd hnd
          (le_of_lt (lt_trans bTol_pos hg.1)) hV h) f
    · exact h f

lemma boundCellLoop_inRange (m : Mesh) (phi : ℕ → ℚ) (dt : ℚ) (alpha1 : ℕ → ℚ)
    (celli : ℕ) (hd : 0 ≤ dt) (hnd : (m.cellFaces celli).Nodup)
    (hV : 0 ≤ m.vol celli) :
    ∀ (fuel : ℕ) (fl : Bool) (o : ℚ) (n : ℕ) (s : BState),
      (∀ f, inRange (phi f * dt) (s.dVf f)) →
      ∀ f, inRange (phi f * dt)
        ((boundCellLoop m phi dt alpha1 celli fuel fl o n s).dVf f) := by
  intro fuel
  induction fuel with
  | zero => intro fl o n s h f; exact h f
  | succ fuel ih =>
    intro fl o n s h f
    simp only [boundCellLoop]
    split
    · rename_i hg
      exact ih false _ _ _
        (boundIterBody_inRange m phi dt alpha1 celli o fl s hd hnd
          (le_of_lt (lt_trans bTol_pos hg.1)) hV h) f
    · exact h f

lemma boundFromAbove_cap (m : Mesh) (phi : ℕ → ℚ) (dt : ℚ)
    (checkBounding : ℕ → Bool) (alpha1 : ℕ → ℚ) (fuel : ℕ) (dVf0 : ℕ → ℚ)
    (hd : 0 ≤ dt) (hnd : ∀ c, (m.cellFaces c).Nodup) (hV : ∀ c, 0 ≤ m.vol c)
    (hcap : ∀ f, |dVf0 f| ≤ |phi f * dt|) :
    ∀ f, |(boundFromAbove m phi dt checkBounding alpha1 fuel dVf0).dVf f| ≤
      |phi f * dt| := by
  refine foldl_preserve (fun s : BState => ∀ f, |s.dVf f| ≤ |phi f * dt|)
    (boundCellStep m phi dt checkBounding alpha1 fuel) ?_ (List.range m.nCells)
    _ hcap
  intro s celli hs
  unfold boundCellStep
  split
  · exact boundCellLoop_cap m phi dt alpha1 celli hd (hnd celli) (hV celli)
      fuel true _ 1 s hs
  · exact hs

lemma boundFromAbove_inRange (m : Mesh) (phi : ℕ → ℚ) (dt : ℚ)
    (checkBounding : ℕ → Bool) (alpha1 : ℕ → ℚ) (fuel : ℕ) (dVf0 : ℕ → ℚ)
    (hd : 0 ≤ dt) (hnd : ∀ c, (m.cellFaces c).Nodup) (hV : ∀ c, 0 ≤ m.vol c)
    (hr : ∀ f, inRange (phi f * dt) (dVf0 f)) :
    ∀ f, inRange (phi f * dt)
      ((boundFromAbove m phi dt checkBounding alpha1 fuel dVf0).dVf f) := by
  refine foldl_preserve (fun s : BState => ∀ f, inRange (phi f * dt) (s.dVf f))
    (boundCellStep m phi dt checkBounding alpha1 fuel) ?_ (List.range m.nCells)
    _ hr
  intro s celli hs
  unfold boundCellStep
  split
  · exact boundCellLoop_inRange m phi dt alpha1 celli hd (hnd celli) (hV celli)
      fuel true _ 1 s hs
  · exact hs

/-! ### Characterisation of the bounding-candidate marking -/

lemma foldl_updB_true (c : ℕ) :
    ∀ (L : List ℕ) (cb : ℕ → Bool),
      (L.foldl (fun cb2 n => updB cb2 n true) cb) c = (cb c || decide (c ∈ L)) := by
  intro L
  induction L with
  | nil => intro cb; simp
  | cons a L ih =>
    intro cb
    rw [List.foldl_cons, ih]
    by_cases h : c = a <;> simp [updB, h, List.mem_cons]

lemma markNeighbours_cb (m : Mesh) (o : ℕ) (cb : ℕ → Bool) (c : ℕ) :
    markNeighbours m o cb c =
      (cb c || (decide (c = o) || decide (c ∈ m.cellCells o))) := by
  rw [markNeighbours, foldl_updB_true]
  by_cases h : c = o <;> simp [updB, h, Bool.or_assoc]

lemma foldl_cb_or {σ : Type} (cbOf : σ → ℕ → Bool) (step : σ → ℕ → σ)
    (contrib : ℕ → Bool) (c : ℕ)
    (h : ∀ st a, cbOf (step st a) c = (cbOf st c || contrib a)) :
    ∀ (L : List ℕ) (st : σ), cbOf (L.foldl step st) c = (cbOf st c || L.any contrib) := by
  intro L
  induction L with
  | nil => intro st; simp
  | cons a L ih =>
    intro st
    rw [List.foldl_cons, ih, h, List.any_cons, Bool.or_assoc]

lemma tifFaceStep_cb (m : Mesh) (phi : ℕ → ℚ) (ef : ℕ → ℕ → ℚ) (celli : ℕ)
    (st : TIFState) (facei c : ℕ) :
    (tifFaceStep m phi ef celli st facei).cb c =
      (st.cb c || faceContrib m celli facei c) := by
  unfold tifFaceStep faceContrib
  by_cases hi : facei < m.nInternalFaces
  · rw [if_pos hi]
    show markNeighbours m _ ((if _ then _ else st).cb) c = _
    rw [markNeighbours_cb]
    have hcb : (if (if m.owner facei = celli then decide (bTol < phi facei)
          else decide (phi facei < -bTol)) = true
        then { st with dVf := updF st.dVf facei (ef celli facei) }
        else st).cb c = st.cb c := by
      split <;> split <;> rfl
    rw [hcb]
    simp [hi]
  · rw [if_neg hi]
    simp [hi]

lemma tifCellFaces_cb (m : Mesh) (phi : ℕ → ℚ) (ef : ℕ → ℕ → ℚ) (celli : ℕ)
    (st : TIFState) (c : ℕ) :
    (tifCellFaces m phi ef celli st).cb c =
      (st.cb c || (m.cellFaces celli).any fun facei => faceContrib m celli facei c) :=
  foldl_cb_or (fun st => st.cb) (tifFaceStep m phi ef celli) _ c
    (fun st a => tifFaceStep_cb m phi ef celli st a c) (m.cellFaces celli) st

lemma tifCellStep_cb (m : Mesh) (surfCellTol : ℚ) (alpha1 : ℕ → ℚ)
    (cutStatus : ℕ → ℤ) (phi : ℕ → ℚ) (ef : ℕ → ℕ → ℚ)
    (st : TIFState) (celli c : ℕ) :
    (tifCellStep m surfCellTol alpha1 cutStatus phi ef st celli).cb c =
      (st.cb c || cellContrib m surfCellTol alpha1 cutStatus celli c) := by
  unfold tifCellStep cellContrib
  cases hs : isASurfaceCell surfCellTol (alpha1 celli) with
  | true =>
    rw [if_pos rfl]
    by_cases hc : cutStatus celli = 0
    · rw [if_pos hc, tifCellFaces_cb]
      by_cases he : c = celli <;> simp [updB, hc, he, Bool.or_assoc]
    · rw [if_neg hc]
      by_cases he : c = celli <;> simp [updB, hc, he]
  | false =>
    rw [if_neg (by simp)]
    simp

lemma timeIntegratedFluxMarking_cb (m : Mesh) (surfCellTol : ℚ) (alpha1 : ℕ → ℚ)
    (cutStatus : ℕ → ℤ) (phi : ℕ → ℚ) (ef : ℕ → ℕ → ℚ) (dVf0 : ℕ → ℚ) (c : ℕ) :
    (timeIntegratedFluxMarking m surfCellTol alpha1 cutStatus phi ef dVf0).cb c =
      codeCandidate m surfCellTol alpha1 cutStatus c := by
  unfold timeIntegratedFluxMarking codeCandidate
  rw [foldl_cb_or (fun st => st.cb) _ _ c
    (fun st a => tifCellStep_cb m surfCellTol alpha1 cutStatus phi ef st a c)]
  rfl

/-! ### Characterisation of the processor-patch exchange -/

lemma zipFold_slot_other (p q fid : ℕ) (hq : q ≠ p) :
    ∀ (Lz : List (ℕ × ℚ)) (lf : ℕ → ℕ → ℚ),
      (Lz.foldl (fun lf pr => updF2 lf p pr.1 (-pr.2)) lf) q fid = lf q fid := by
  intro Lz
  induction Lz with
  | nil => intro lf; rfl
  | cons a Lz ih =>
    intro lf
    rw [List.foldl_cons, ih]
    simp [updF2, hq]

lemma zipFold_slot_untouched (p fid : ℕ) :
    ∀ (Lz : List (ℕ × ℚ)) (lf : ℕ → ℕ → ℚ), fid ∉ Lz.map Prod.fst →
      (Lz.foldl (fun lf pr => updF2 lf p pr.1 (-pr.2)) lf) p fid = lf p fid := by
  intro Lz
  induction Lz with
  | nil => intro lf _; rfl
  | cons a Lz ih =>
    intro lf hf
    simp only [List.map_cons, List.mem_cons, not_or] at hf
    rw [List.foldl_cons, ih _ hf.2]
    simp [updF2, hf.1]

lemma zipFold_slot_get (p : ℕ) :
    ∀ (Lz : List (ℕ × ℚ)) (pr : ℕ × ℚ) (lf : ℕ → ℕ → ℚ),
      (Lz.map Prod.fst).Nodup → pr ∈ Lz →
      (Lz.foldl (fun lf pr2 => updF2 lf p pr2.1 (-pr2.2)) lf) p pr.1 = -pr.2 := by
  intro Lz
  induction Lz with
  | nil => intro pr _ _ h; exact absurd h (List.not_mem_nil pr)
  | cons a Lz ih =>
    intro pr lf hnd hm
    rw [List.map_cons, List.nodup_cons] at hnd
    rcases List.mem_cons.mp hm with rfl | hm'
    · rw [List.foldl_cons, zipFold_slot_untouched p pr.1 Lz _ hnd.1]
      simp [updF2]
    · rw [List.foldl_cons]
      exact ih pr _ hnd.2 hm'

lemma patchFold_pending (received : ℕ → List ℕ × List ℚ) :
    ∀ (L : List ℕ) (st : PSyncState),
      (L.foldl (syncPatchStep received) st).pending = st.pending := by
  intro L
  induction L with
  | nil => intro st; rfl
  | cons a L ih => intro st; rw [List.foldl_cons, ih]; rfl

lemma patchFold_slot_other (received : ℕ → List ℕ × List ℚ) (p fid : ℕ) :
    ∀ (L : List ℕ) (st : PSyncState), p ∉ L →
      (L.foldl (syncPatchStep received) st).localFlux p fid = st.localFlux p fid := by
  intro L
  induction L with
  | nil => intro st _; rfl
  | cons a L ih =>
    intro st hp
    simp only [List.mem_cons, not_or] at hp
    rw [List.foldl_cons, ih _ hp.2]
    exact zipFold_slot_other a p fid hp.1 _ st.localFlux

lemma patchFold_slot_get (received : ℕ → List ℕ × List ℚ) (p fid : ℕ) (v : ℚ)
    (hnd2 : (received p).1.Nodup)
    (hlen : (received p).1.length ≤ (received p).2.length)
    (hmem : (fid, v) ∈ (received p).1.zip (received p).2) :
    ∀ (L : List ℕ), L.Nodup → p ∈ L → ∀ st : PSyncState,
      (L.foldl (syncPatchStep received) st).localFlux p fid = -v := by
  intro L
  induction L with
  | nil => intro _ h; exact absurd h (List.not_mem_nil p)
  | cons a L ih =>
    intro hnd hp st
    rw [List.nodup_cons] at hnd
    rcases List.mem_cons.mp hp with rfl | hp'
    · rw [List.foldl_cons, patchFold_slot_other received p fid L _ hnd.1]
      have hmap : ((received p).1.zip (received p).2).map Prod.fst = (received p).1 :=
        List.map_fst_zip _ _ hlen
      have hnd3 : (((received p).1.zip (received p).2).map Prod.fst).Nodup := by
        rw [hmap]; exact hnd2
      exact zipFold_slot_get p _ (fid, v) st.localFlux hnd3 hmem
    · rw [List.foldl_cons]
      exact ih hnd.2 hp' _

/-! ### The guard trace of the `limitFluxes` pass loop -/

lemma foldl_trace {α : Type} (g : α → α) (p : Bool × Bool) :
    ∀ (n : ℕ) (d : α) (acc : List (Bool × Bool)),
      ((List.range n).foldl
        (fun st _ => (g st.1, st.2 ++ [p])) (d, acc)).2 =
        acc ++ List.replicate n p := by
  intro n
  induction n with
  | zero => intro d acc; simp
  | succ n ih =>
    intro d acc
    rw [List.range_succ, List.foldl_append, List.replicate_succ',
      ← List.append_assoc, ← ih d acc]
    rfl

/-! ### Claim theorems -/

/-- Claim C8: `isASurfaceCell(a, tol)` returns true if and only if
`tol < a < 1 - tol`, with both inequalities strict; as a Lean function
of its two scalar arguments it is pure by construction. -/
theorem C8_isASurfaceCell (tol a : ℚ) :
    isASurfaceCell tol a = true ↔ (tol < a ∧ a < 1 - tol) := by
  simp [isASurfaceCell]

/-- Claim C9: for `0 < snapTol ≤ 1/2`, the snap step of
`applyBruteForceBounding` maps fractions strictly below `snapTol` to 0,
fractions strictly above `1 - snapTol` to 1, and leaves fractions
strictly between `snapTol` and `1 - snapTol` unchanged; for
`snapTol = 0` (the default) the snap step changes nothing. -/
theorem C9_snap_semantics (s a : ℚ) (hs : 0 < s) (hs2 : s ≤ 1 / 2) :
    (a < s → snapAlpha s a = 0) ∧
    (1 - s < a → snapAlpha s a = 1) ∧
    (s < a → a < 1 - s → snapAlpha s a = a) ∧
    (∀ b : ℚ, snapAlpha 0 b = b) := by
  refine ⟨?_, ?_, ?_, ?_⟩
  · intro h
    have h1 : ¬ (0:ℚ) ≤ a - s := by linarith
    have h2 : ¬ (0:ℚ) ≤ a - (1 - s) := by linarith
    simp [snapAlpha, pos0, neg0, hs, h1, h2]
  · intro h
    have h1 : (0:ℚ) ≤ a - s := by linarith
    have h2 : (0:ℚ) ≤ a - (1 - s) := by linarith
    have h3 : ¬ (a - (1 - s) ≤ 0) := by linarith
    simp [snapAlpha, pos0, neg0, hs, h1, h2, h3]
  · intro h1 h2
    have g1 : (0:ℚ) ≤ a - s := by linarith
    have g2 : a - (1 - s) ≤ 0 := by linarith
    have g3 : ¬ (0:ℚ) ≤ a - (1 - s) := by linarith
    simp [snapAlpha, pos0, neg0, hs, g1, g2, g3]
  · intro b
    simp [snapAlpha]

/-- Witness for C9 at `snapTol = 1/4`: a fraction of `1/8` snaps to 0, a
fraction of `7/8` snaps to 1, and a fraction of `1/2` is unchanged. -/
theorem C9_snap_semantics_witness :
    (0:ℚ) < 1 / 4 ∧ (1:ℚ) / 4 ≤ 1 / 2 ∧
    (((1:ℚ) / 8 < 1 / 4 → snapAlpha (1 / 4) (1 / 8) = 0) ∧
     (1 - 1 / 4 < (1:ℚ) / 8 → snapAlpha (1 / 4) (1 / 8) = 1) ∧
     ((1:ℚ) / 4 < 1 / 8 → (1:ℚ) / 8 < 1 - 1 / 4 → snapAlpha (1 / 4) (1 / 8) = 1 / 8) ∧
     (∀ b : ℚ, snapAlpha 0 b = b)) :=
  ⟨by norm_num, by norm_num, C9_snap_semantics (1 / 4) (1 / 8) (by norm_num) (by norm_num)⟩

/-- Claim C1: capacity invariant of the conservative bounding engine.
If the transport field satisfies `mag(dVf) <= mag(phi*dt)` on entry,
then it still does after `boundFromAbove` (any fuel, i.e. any number of
`while` iterations), and after every single redistribution iteration of
the inner loop (the "during" part); in particular the bound with any
slack `eps >= 0` holds, and the growth of a face's transport magnitude
never exceeds its spare capacity `mag(phi*dt) - mag(dVf)` on entry. -/
theorem C1_capacity_invariant (m : Mesh) (phi : ℕ → ℚ) (dt eps : ℚ)
    (checkBounding : ℕ → Bool) (alpha1 : ℕ → ℚ) (fuel : ℕ) (dVf0 : ℕ → ℚ)
    (hdt : 0 ≤ dt) (hV : ∀ c, 0 ≤ m.vol c) (hnd : ∀ c, (m.cellFaces c).Nodup)
    (heps : 0 ≤ eps) (hcap : ∀ f, |dVf0 f| ≤ |phi f * dt|) :
    (∀ f, |(boundFromAbove m phi dt checkBounding alpha1 fuel dVf0).dVf f| ≤
      |phi f * dt| + eps) ∧
    (∀ (celli : ℕ) (o : ℚ) (fl : Bool) (s : BState), 0 ≤ o →
      (∀ f, |s.dVf f| ≤ |phi f * dt|) →
      ∀ f, |(boundIterBody m phi dt alpha1 celli o fl s).1.dVf f| ≤
        |phi f * dt| + eps) ∧
    (∀ f, |(boundFromAbove m phi dt checkBounding alpha1 fuel dVf0).dVf f| -
      |dVf0 f| ≤ (|phi f * dt| - |dVf0 f|) + eps) := by
  have hmain := boundFromAbove_cap m phi dt checkBounding alpha1 fuel dVf0
    hdt hnd hV hcap
  refine ⟨fun f => by linarith [hmain f], ?_, fun f => by linarith [hmain f]⟩
  intro celli o fl st ho hst f
  have := boundIterBody_cap m phi dt alpha1 celli o fl st hdt (hnd celli) ho
    (hV celli) hst f
  linarith

/-- Witness for C1 on the two-cell mesh with unit flux, `dt = 1`, an
overshooting fraction field and zero initial transport. -/
theorem C1_capacity_invariant_witness :
    (0:ℚ) ≤ 1 ∧ (∀ c, (0:ℚ) ≤ mesh2.vol c) ∧ (∀ c, (mesh2.cellFaces c).Nodup) ∧
    (∀ f, |(fun _ => (0:ℚ)) f| ≤ |phiW f * 1|) ∧
    (∀ f, |(boundFromAbove mesh2 phiW 1 (fun _ => true) alphaW 3
      (fun _ => 0)).dVf f| ≤ |phiW f * 1| + 0) :=
  ⟨by norm_num, fun c => by norm_num [mesh2], fun c => by simp [mesh2],
    fun f => by norm_num [phiW],
    (C1_capacity_invariant mesh2 phiW 1 0 (fun _ => true) alphaW 3 (fun _ => 0)
      (by norm_num) (fun c => by norm_num [mesh2]) (fun c => by simp [mesh2])
      (le_refl 0) (fun f => by norm_num [phiW])).1⟩

/-- Claim C2: one `while` iteration of `boundFromAbove` for a candidate
cell whose overshoot exceeds the tolerance.  (a) Exactly the downwind
faces whose spare capacity `(mag(phi*dt) - mag(dVf))/V` exceeds the
tolerance are eligible (the code's `mag(phi*dt - dVf)` equals the spare
capacity under the sign-agreement capacity invariant `inRange`);
(b) each eligible face receives the share
`(overshoot*V)*mag(phi_i*dt)/dVftot` clamped to its spare capacity,
added with the sign of `phi`; (c) every other face is untouched;
(d) the overshoot is recomputed from the updated transport;
(e) with no eligible face the count is 0; (f) when the count is 0 no
downwind face qualifies in the resulting state; (g) the loop stops when
the overshoot is at most the tolerance or the count is 0; (h) otherwise
it repeats on the iteration body's output. -/
theorem C2_redistribution_step (m : Mesh) (phi : ℕ → ℚ) (dt : ℚ)
    (alpha1 : ℕ → ℚ) (celli : ℕ) (o : ℚ) (fl : Bool) (s : BState)
    (hdt : 0 ≤ dt) (hnd : (m.cellFaces celli).Nodup)
    (hr : ∀ f, inRange (phi f * dt) (s.dVf f)) (ho : bTol < o) :
    ((eligEntries m phi dt celli s.dVf).map (fun e => e.1) =
      (setDownwindFaces m phi celli).filter
        (fun f => decide (bTol < (|phi f * dt| - |s.dVf f|) / m.vol celli))) ∧
    (∀ f ∈ (eligEntries m phi dt celli s.dVf).map (fun e => e.1),
      (boundIterBody m phi dt alpha1 celli o fl s).1.dVf f =
        s.dVf f + signQ (phi f) *
          min (o * m.vol celli * |phi f * dt| /
              dVftotOf dt (eligEntries m phi dt celli s.dVf))
            (|phi f * dt| - |s.dVf f|)) ∧
    (∀ f, f ∉ (eligEntries m phi dt celli s.dVf).map (fun e => e.1) →
      (boundIterBody m phi dt alpha1 celli o fl s).1.dVf f = s.dVf f) ∧
    ((boundIterBody m phi dt alpha1 celli o fl s).2.1 =
      alpha1 celli -
        netFlux m (boundIterBody m phi dt alpha1 celli o fl s).1.dVf celli /
          m.vol celli - 1) ∧
    (eligEntries m phi dt celli s.dVf = [] →
      (boundIterBody m phi dt alpha1 celli o fl s).2.2 = 0) ∧
    ((boundIterBody m phi dt alpha1 celli o fl s).2.2 = 0 →
      ∀ f ∈ setDownwindFaces m phi celli,
        ¬ bTol < |phi f * dt -
            (boundIterBody m phi dt alpha1 celli o fl s).1.dVf f| / m.vol celli) ∧
    (∀ (fuel : ℕ) (fl2 : Bool) (o2 : ℚ) (n : ℕ) (s2 : BState),
      ¬ (bTol < o2 ∧ 0 < n) →
      boundCellLoop m phi dt alpha1 celli (fuel + 1) fl2 o2 n s2 = s2) ∧
    (∀ (fuel n : ℕ), 0 < n →
      boundCellLoop m phi dt alpha1 celli (fuel + 1) fl o n s =
        boundCellLoop m phi dt alpha1 celli fuel false
          (boundIterBody m phi dt alpha1 celli o fl s).2.1
          (boundIterBody m phi dt alpha1 celli o fl s).2.2
          (boundIterBody m phi dt alpha1 celli o fl s).1) := by
  refine ⟨?_, ?_, ?_, rfl, ?_, ?_, ?_, ?_⟩
  · rw [eligEntries_map_fst]
    apply List.filter_congr
    intro f _
    rw [inRange_mag_sub (hr f)]
  · intro f hf
    have hb := (boundIterBody_dVf m phi dt alpha1 celli o fl s hnd f).1 hf
    rw [inRange_mag_sub (hr f)] at hb
    exact hb
  · intro f hf
    exact (boundIterBody_dVf m phi dt alpha1 celli o fl s hnd f).2 hf
  · intro h
    show ((eligEntries m phi dt celli s.dVf).foldl
        (distStep dt (o * m.vol celli)
          (dVftotOf dt (eligEntries m phi dt celli s.dVf)) fl)
        ({ s with bounded := updB s.bounded celli true }, 0)).2 = 0
    rw [h]
    rfl
  · intro hn f hf
    by_cases hfe : f ∈ (eligEntries m phi dt celli s.dVf).map (fun e => e.1)
    · obtain ⟨e, he, hef⟩ := List.mem_map.mp hfe
      subst hef
      obtain ⟨hdw', hphi, hmx, _⟩ := mem_eligEntries he
      have h22 : (boundIterBody m phi dt alpha1 celli o fl s).2.2 =
          0 + (eligEntries m phi dt celli s.dVf).countP
            (fun e2 => decide (0 ≤ e2.2.2 - (o * m.vol celli) * |e2.2.1 * dt| /
              dVftotOf dt (eligEntries m phi dt celli s.dVf))) := by
        show ((eligEntries m phi dt celli s.dVf).foldl
            (distStep dt (o * m.vol celli)
              (dVftotOf dt (eligEntries m phi dt celli s.dVf)) fl)
            ({ s with bounded := updB s.bounded celli true }, 0)).2 = _
        exact distFold_count dt (o * m.vol celli)
          (dVftotOf dt (eligEntries m phi dt celli s.dVf)) fl
          (eligEntries m phi dt celli s.dVf) _
      rw [hn] at h22
      have hc0 : (eligEntries m phi dt celli s.dVf).countP
          (fun e2 => decide (0 ≤ e2.2.2 - (o * m.vol celli) * |e2.2.1 * dt| /
            dVftotOf dt (eligEntries m phi dt celli s.dVf))) = 0 := by omega
      have hzero := List.countP_eq_zero.mp hc0 e he
      simp only [decide_eq_true_eq] at hzero
      push_neg at hzero
      have hlt : e.2.2 < o * m.vol celli * |e.2.1 * dt| /
          dVftotOf dt (eligEntries m phi dt celli s.dVf) := by linarith
      have hval := (boundIterBody_dVf m phi dt alpha1 celli o fl s hnd e.1).1
        (List.mem_map_of_mem _ he)
      rw [hphi] at hlt
      rw [hmx] at hlt
      have hminr : min (o * m.vol celli * |phi e.1 * dt| /
          dVftotOf dt (eligEntries m phi dt celli s.dVf))
          |phi e.1 * dt - s.dVf e.1| = |phi e.1 * dt - s.dVf e.1| :=
        min_eq_right (le_of_lt hlt)
      rw [hminr] at hval
      rw [update_saturate hdt (hr e.1)] at hval
      rw [hval, sub_self, abs_zero, zero_div]
      exact not_lt.mpr (le_of_lt bTol_pos)
    · have hunch := (boundIterBody_dVf m phi dt alpha1 celli o fl s hnd f).2 hfe
      rw [hunch]
      intro hlt
      apply hfe
      rw [eligEntries_map_fst]
      exact List.mem_filter.mpr ⟨hf, by simpa using hlt⟩
  · intro fuel fl2 o2 n s2 hg
    simp only [boundCellLoop]
    rw [if_neg hg]
  · intro fuel n hn
    simp only [boundCellLoop]
    rw [if_pos ⟨ho, hn⟩]

/-- Witness for C2 on the two-cell mesh: the eligibility conjunct at the
overshooting cell 0 with overshoot `3/10`. -/
theorem C2_redistribution_step_witness :
    bTol < (3:ℚ) / 10 ∧ (0:ℚ) < mesh2.vol 0 ∧
    (eligEntries mesh2 phiW 1 0 sW.dVf).map (fun e => e.1) =
      (setDownwindFaces mesh2 phiW 0).filter
        (fun f => decide (bTol < (|phiW f * 1| - |sW.dVf f|) / mesh2.vol 0)) :=
  ⟨by norm_num [bTol, SMALL], by norm_num [mesh2],
    (C2_redistribution_step mesh2 phiW 1 alphaW 0 (3 / 10) true sW (by norm_num)
      (by simp [mesh2])
      (fun f => by constructor <;> simp [phiW, sW])
      (by norm_num [bTol, SMALL])).1⟩

/-- Claim C3, counterexample to the claim as stated: a transport field
satisfying the capacity invariant `mag(dVf) <= mag(phi*dt)` alone (with
the transport sign opposite to the flux) is driven OUT of the capacity
invariant by the lower-bound branch of `limitFluxes`.  With `phi = 1/10`,
`dt = 1` and `dVf = -1/10` on the single face of the two-cell mesh, the
converted-back transport after the branch is `-3/10`. -/
theorem C3_counterexample :
    (∀ f, |dVfCounter f| ≤ |phiCounter f * 1|) ∧
    ¬ (∀ f, |lowerBoundBranch mesh2 phiCounter 1 (fun _ => true) alphaCounter 6
        dVfCounter f| ≤ |phiCounter f * 1|) := by
  constructor
  · intro f
    norm_num [dVfCounter, phiCounter]
  · intro h
    have h0 := h 0
    have hval : lowerBoundBranch mesh2 phiCounter 1 (fun _ => true) alphaCounter 6
        dVfCounter 0 = -(2 / 10) := by
      norm_num [lowerBoundBranch, boundFromAbove, boundCellStep, boundCellLoop,
        boundIterBody, distStep, eligEntries, dVftotOf, setDownwindFaces, netFlux,
        updF, updB, signQ, mesh2, phiCounter, alphaCounter, dVfCounter, bTol, SMALL,
        List.range_succ, List.filter, List.foldl, abs_of_nonneg, abs_of_nonpos]
    rw [hval] at h0
    norm_num [phiCounter, abs_of_nonneg] at h0

/-- Claim C3 as amended: the lower-bound branch is, by construction,
`boundFromAbove` applied to the complementary fraction `1 - alpha1` and
the complementary working transport `phi*dt - dVf`, with each corrected
face converted back via `dVf_new = phi*dt - dVfCorrected`; and for every
transport field satisfying the capacity invariant TOGETHER WITH sign
agreement (each `dVf f` between 0 and `phi f * dt`, the `inRange`
invariant the source comments assume), the converted-back result still
satisfies the capacity invariant. -/
theorem C3_lower_bound_symmetry (m : Mesh) (phi : ℕ → ℚ) (dt : ℚ)
    (checkBounding : ℕ → Bool) (alpha1 : ℕ → ℚ) (fuel : ℕ) (dVf : ℕ → ℚ)
    (hdt : 0 ≤ dt) (hV : ∀ c, 0 ≤ m.vol c) (hnd : ∀ c, (m.cellFaces c).Nodup)
    (hr : ∀ f, inRange (phi f * dt) (dVf f)) :
    (∀ f, lowerBoundBranch m phi dt checkBounding alpha1 fuel dVf f =
      (if f ∈ (boundFromAbove m phi dt checkBounding (fun c => 1 - alpha1 c)
          fuel (fun f2 => phi f2 * dt - dVf f2)).corrected
       then phi f * dt -
         (boundFromAbove m phi dt checkBounding (fun c => 1 - alpha1 c)
           fuel (fun f2 => phi f2 * dt - dVf f2)).dVf f
       else dVf f)) ∧
    (∀ f, |lowerBoundBranch m phi dt checkBounding alpha1 fuel dVf f| ≤
      |phi f * dt|) := by
  refine ⟨fun f => rfl, ?_⟩
  intro f
  have hr0 : ∀ f2, inRange (phi f2 * dt) (phi f2 * dt - dVf f2) :=
    fun f2 => inRange_compl (hr f2)
  have hres := boundFromAbove_inRange m phi dt checkBounding
    (fun c => 1 - alpha1 c) fuel (fun f2 => phi f2 * dt - dVf f2)
    hdt hnd hV hr0
  show |(if f ∈ (boundFromAbove m phi dt checkBounding
      (fun c => 1 - alpha1 c) fuel (fun f2 => phi f2 * dt - dVf f2)).corrected
    then phi f * dt -
      (boundFromAbove m phi dt checkBounding (fun c => 1 - alpha1 c)
        fuel (fun f2 => phi f2 * dt - dVf f2)).dVf f
    else dVf f)| ≤ |phi f * dt|
  split
  · exact inRange_cap (inRange_compl (hres f))
  · exact inRange_cap (hr f)

/-- Witness for C3 (amended) with an in-range transport `dVf = 1/20`
against `phi = 1/10`, `dt = 1`. -/
theorem C3_lower_bound_symmetry_witness :
    (∀ f, inRange (phiCounter f * 1) ((fun _ => (1:ℚ) / 20) f)) ∧
    (∀ f, |lowerBoundBranch mesh2 phiCounter 1 (fun _ => true) alphaCounter 6
       (fun _ => (1:ℚ) / 20) f| ≤ |phiCounter f * 1|) :=
  ⟨fun f => by constructor <;> norm_num [phiCounter, min_le_iff, le_max_iff],
    (C3_lower_bound_symmetry mesh2 phiCounter 1 (fun _ => true) alphaCounter 6
      (fun _ => 1 / 20) (by norm_num) (fun c => by norm_num [mesh2])
      (fun c => by simp [mesh2])
      (fun f => by constructor <;> norm_num [phiCounter, min_le_iff, le_max_iff])).2⟩

/-- The per-pass guard trace of `limitFluxes` is the pair of global
max/min tests evaluated on the pre-bounding projected fraction field,
replicated for all `nAlphaBounds` passes. -/
lemma limitFluxes_trace (m : Mesh) (phi : ℕ → ℚ) (dt : ℚ)
    (checkBounding : ℕ → Bool) (alpha1 : ℕ → ℚ) (fuel nAlphaBounds : ℕ)
    (dVf0 : ℕ → ℚ) :
    (limitFluxes m phi dt checkBounding alpha1 fuel nAlphaBounds dVf0).2 =
      List.replicate nAlphaBounds
        (decide (lTol <
          gMaxCells m (fun c => alpha1 c - surfaceIntegrate m dVf0 c) - 1),
         decide (gMinCells m (fun c => alpha1 c - surfaceIntegrate m dVf0 c) <
          -lTol)) := by
  show ((List.range nAlphaBounds).foldl _ (dVf0, [])).2 = _
  exact foldl_trace
    (limitPass m phi dt checkBounding alpha1 fuel
      (decide (lTol <
        gMaxCells m (fun c => alpha1 c - surfaceIntegrate m dVf0 c) - 1))
      (decide (gMinCells m (fun c => alpha1 c - surfaceIntegrate m dVf0 c) <
        -lTol)))
    _ nAlphaBounds dVf0 []

/-- Claim C4, counterexample to the claim as stated: the overshoot and
undershoot indicators of `limitFluxes` are computed once, before the
pass loop, and never refreshed.  On the two-cell mesh with
`alpha1 = (13/10, 0)`, a single pass removes the overshoot (the global
max test recomputed after pass 1 shows no violation), yet the three-pass
run still evaluates the above-bound guard as true in passes 2 and 3. -/
theorem C4_counterexample :
    (limitFluxes mesh2 phiW 1 (fun _ => true) alphaW 5 3 (fun _ => 0)).2 =
      [(true, false), (true, false), (true, false)] ∧
    gMaxCells mesh2 (fun c => alphaW c -
      surfaceIntegrate mesh2
        ((limitFluxes mesh2 phiW 1 (fun _ => true) alphaW 5 1 (fun _ => 0)).1) c)
      - 1 ≤ lTol := by
  constructor
  · rw [limitFluxes_trace]
    norm_num [gMaxCells, gMinCells, surfaceIntegrate, netFlux, mesh2, alphaW,
      phiW, lTol, List.range_succ, List.replicate]
  · norm_num [limitFluxes, limitPass, upperBoundBranch, lowerBoundBranch,
      boundFromAbove, boundCellStep, boundCellLoop, boundIterBody, distStep,
      eligEntries, dVftotOf, setDownwindFaces, netFlux, updF, updB, signQ,
      gMaxCells, gMinCells, surfaceIntegrate, mesh2, phiW, alphaW, bTol, SMALL,
      lTol, List.range_succ, List.filter, List.foldl, abs_of_nonneg,
      abs_of_nonpos]

/-- Claim C4 as amended: the outer loop performs exactly `nAlphaBounds`
passes, and the two branch guards of every pass are the values of the
global max/min tests computed once from the pre-bounding projected
fraction field: each inner routine is invoked in every pass or in none,
not re-gated on the per-pass projected field. -/
theorem C4_pass_guards_static (m : Mesh) (phi : ℕ → ℚ) (dt : ℚ)
    (checkBounding : ℕ → Bool) (alpha1 : ℕ → ℚ) (fuel nAlphaBounds : ℕ)
    (dVf0 : ℕ → ℚ) :
    (limitFluxes m phi dt checkBounding alpha1 fuel nAlphaBounds dVf0).2 =
      List.replicate nAlphaBounds
        (decide (lTol <
          gMaxCells m (fun c => alpha1 c - surfaceIntegrate m dVf0 c) - 1),
         decide (gMinCells m (fun c => alpha1 c - surfaceIntegrate m dVf0 c) <
          -lTol)) :=
  limitFluxes_trace m phi dt checkBounding alpha1 fuel nAlphaBounds dVf0

lemma SMALL_pos : 0 < SMALL := by norm_num [SMALL]

lemma mag3_nonneg (v : Vec3) : 0 ≤ mag3 v := Real.sqrt_nonneg _

lemma mag3_vzero : mag3 vzero = 0 := by
  simp [mag3, vzero]

/-- Dividing a vector componentwise by its own nonzero magnitude yields
a unit vector. -/
lemma mag3_sdiv_self (v : Vec3) (h : mag3 v ≠ 0) : mag3 (sdiv v (mag3 v)) = 1 := by
  have hS : (0:ℝ) ≤ v.x ^ 2 + v.y ^ 2 + v.z ^ 2 := by positivity
  have hs2 : mag3 v ^ 2 = v.x ^ 2 + v.y ^ 2 + v.z ^ 2 := Real.sq_sqrt hS
  have hSne : v.x ^ 2 + v.y ^ 2 + v.z ^ 2 ≠ 0 := by
    intro h0
    exact h (by rw [mag3, h0, Real.sqrt_zero])
  have hsum : (v.x / mag3 v) ^ 2 + (v.y / mag3 v) ^ 2 + (v.z / mag3 v) ^ 2 = 1 := by
    rw [div_pow, div_pow, div_pow, div_add_div_same, div_add_div_same, hs2]
    exact div_self hSne
  show Real.sqrt ((v.x / mag3 v) ^ 2 + (v.y / mag3 v) ^ 2 + (v.z / mag3 v) ^ 2) = 1
  rw [hsum, Real.sqrt_one]

/-- Claim C5, counterexample to the claim as stated: the isoface-normal
normalisation `n0 /= mag(n0)` (timeIntegratedFlux line 252, and
`getNormal`) and the vertex-weight division
`w = 1.0/mag(vertex - cellCentre)` (normaliseAndSmooth line 446) have
bare denominators with no additive epsilon: both vanish at degenerate
inputs (a zero area vector; a vertex coinciding with the cell centre),
so it is false that every intermediate division of the core has a
denominator bounded below by the SMALL guard. -/
theorem C5_counterexample :
    isoNormalDenom vzero = 0 ∧ vertexWeightDenom vzero vzero = 0 ∧
    ¬ (∀ v : Vec3, ((SMALL : ℚ) : ℝ) ≤ isoNormalDenom v) := by
  have hz : vsub vzero vzero = vzero := by simp [vsub, vzero]
  refine ⟨mag3_vzero, ?_, ?_⟩
  · show mag3 (vsub vzero vzero) = 0
    rw [hz, mag3_vzero]
  · intro h
    have h0 := h vzero
    simp only [isoNormalDenom, mag3_vzero] at h0
    have hp : (0:ℝ) < ((SMALL : ℚ) : ℝ) := by exact_mod_cast SMALL_pos
    linarith

/-- Claim C5 as amended: only the `normaliseAndSmooth` divisions carry
the additive SMALL guard (their denominators are bounded below by
SMALL); the redistribution share's denominator `dVftot` is positive
whenever any face is eligible — because eligible faces are downwind
faces with `mag(phi) > 10*SMALL` and `dt > 0` — not because of an
epsilon guard; and by the counterexample the isoface-normal and
vertex-weight denominators are unguarded. -/
theorem C5_division_guards :
    (∀ v : Vec3, ((SMALL : ℚ) : ℝ) ≤ smoothDenom v) ∧
    (∀ (m : Mesh) (phi dVf : ℕ → ℚ) (dt : ℚ) (celli : ℕ), 0 < dt →
      eligEntries m phi dt celli dVf ≠ [] →
      0 < dVftotOf dt (eligEntries m phi dt celli dVf)) := by
  constructor
  · intro v
    have h1 : 0 ≤ mag3 v := mag3_nonneg v
    show ((SMALL : ℚ) : ℝ) ≤ mag3 v + ((SMALL : ℚ) : ℝ)
    linarith
  · intro m phi dVf dt celli hdt hne
    obtain ⟨e, he⟩ := List.exists_mem_of_ne_nil _ hne
    obtain ⟨hdw, hphi, _, _⟩ := mem_eligEntries he
    have hp : e.2.1 ≠ 0 := by
      rw [hphi]
      rcases setDownwindFaces_phi hdw with h | h
      · exact ne_of_gt (lt_trans bTol_pos h)
      · exact ne_of_lt (lt_trans h (by linarith [bTol_pos]))
    have h1 : 0 < |e.2.1 * dt| := abs_pos.mpr (mul_ne_zero hp (ne_of_gt hdt))
    have h2 : |e.2.1 * dt| ≤ dVftotOf dt (eligEntries m phi dt celli dVf) := by
      unfold dVftotOf
      apply List.single_le_sum
      · intro x hx
        obtain ⟨e2, _, rfl⟩ := List.mem_map.mp hx
        exact abs_nonneg _
      · exact List.mem_map_of_mem _ he
    linarith

/-- Witness for C5 (amended): on the two-cell mesh with unit flux the
eligibility list at cell 0 is nonempty and the share denominator is
positive. -/
theorem C5_division_guards_witness :
    (0:ℚ) < 1 ∧ eligEntries mesh2 phiW 1 0 (fun _ => 0) ≠ [] ∧
    0 < dVftotOf 1 (eligEntries mesh2 phiW 1 0 (fun _ => 0)) := by
  have hne : eligEntries mesh2 phiW 1 0 (fun _ => 0) ≠ [] := by
    norm_num [eligEntries, setDownwindFaces, mesh2, phiW, bTol, SMALL,
      List.filter, abs_of_nonneg]
  exact ⟨by norm_num, hne,
    C5_division_guards.2 mesh2 phiW (fun _ => 0) 1 0 (by norm_num) hne⟩

/-- Claim C6 as amended: after `timeIntegratedFlux` the candidate flag
of every cell equals `codeCandidate`: true exactly for the surface
cells, and — across each internal face of a surface cell that the
cutting engine reports as cut — for the opposite-side cell and each of
its mesh neighbours, regardless of the face's downwind status; the
flags are rebuilt from false on every call. -/
theorem C6_bounding_candidates (m : Mesh) (surfCellTol : ℚ) (alpha1 : ℕ → ℚ)
    (cutStatus : ℕ → ℤ) (phi : ℕ → ℚ) (engineFace : ℕ → ℕ → ℚ) (dVf0 : ℕ → ℚ)
    (c : ℕ) :
    (timeIntegratedFluxMarking m surfCellTol alpha1 cutStatus phi engineFace
      dVf0).cb c = codeCandidate m surfCellTol alpha1 cutStatus c :=
  timeIntegratedFluxMarking_cb m surfCellTol alpha1 cutStatus phi engineFace dVf0 c

/-- Claim C6, counterexample to the claim as stated: on the two-cell
mesh, cell 0 is a surface cell but the cutting engine does not cut it
(status 1, an accepted edge case); the claim's candidate set contains
the opposite-side cell 1, while the code leaves cell 1 unmarked. -/
theorem C6_counterexample :
    claimCandidate mesh2 surfTolW alphaSurf 1 = true ∧
    (timeIntegratedFluxMarking mesh2 surfTolW alphaSurf cutNone phiW
      (fun _ _ => 0) (fun _ => 0)).cb 1 = false := by
  constructor
  · norm_num [claimCandidate, faceContrib, isASurfaceCell, mesh2, surfTolW,
      alphaSurf, List.range_succ]
  · rw [timeIntegratedFluxMarking_cb]
    norm_num [codeCandidate, cellContrib, faceContrib, isASurfaceCell, mesh2,
      surfTolW, alphaSurf, cutNone, List.range_succ]

/-- Claim C7: on a distributed run, each received pair
`(remoteFaceId, remoteValue)` makes the local boundary transport on the
corresponding face exactly `-remoteValue`, regardless of the previous
local value; afterwards every pending list is empty; on a
non-distributed run the call changes nothing. -/
theorem C7_syncProcPatches (procPatchLabels : List ℕ)
    (received : ℕ → List ℕ × List ℚ) (s : PSyncState) (p fid : ℕ) (v : ℚ)
    (hL : procPatchLabels.Nodup) (hp : p ∈ procPatchLabels)
    (hlen : (received p).1.length ≤ (received p).2.length)
    (hnd : (received p).1.Nodup)
    (hmem : (fid, v) ∈ (received p).1.zip (received p).2) :
    (syncProcPatches true procPatchLabels received s).localFlux p fid = -v ∧
    (∀ q, (syncProcPatches true procPatchLabels received s).pending q = []) ∧
    syncProcPatches false procPatchLabels received s = s := by
  refine ⟨?_, fun q => rfl, rfl⟩
  show (procPatchLabels.foldl (syncPatchStep received) s).localFlux p fid = -v
  exact patchFold_slot_get received p fid v hnd hlen hmem procPatchLabels hL hp s

/-- Witness for C7: one processor patch, one received pair `(0, 5)`,
previous local value 3 overwritten to `-5`, pending list `[7]`
cleared. -/
theorem C7_syncProcPatches_witness :
    (syncProcPatches true [0] (fun _ => ([0], [5]))
      { localFlux := fun _ _ => 3, pending := fun _ => [7] }).localFlux 0 0 = -5 ∧
    (∀ q, (syncProcPatches true [0] (fun _ => ([0], [5]))
      { localFlux := fun _ _ => 3, pending := fun _ => [7] }).pending q = []) ∧
    syncProcPatches false [0] (fun _ => ([0], [5]))
      { localFlux := fun _ _ => 3, pending := fun _ => [7] } =
      { localFlux := fun _ _ => 3, pending := fun _ => [7] } :=
  C7_syncProcPatches [0] (fun _ => ([0], [5]))
    { localFlux := fun _ _ => 3, pending := fun _ => [7] } 0 0 5
    (by simp) (by simp) (by simp) (by simp) (by simp)

/-- Claim C10: for a cell the cutting engine does not cut, `getNormal`,
`getSurfaceArea` and `getIsoFaceCentre` all return the zero vector; for
a cut cell `getNormal` is the isoface area vector divided by its own
magnitude, a unit vector whenever that magnitude is nonzero. -/
theorem C10_interface_accessors (e : CutEngine) (celli : ℕ) :
    (cellIsCut e celli = false →
      getNormal e celli = vzero ∧ getSurfaceArea e celli = vzero ∧
      getIsoFaceCentre e celli = vzero) ∧
    (cellIsCut e celli = true →
      getNormal e celli =
        sdiv (e.isoFaceArea celli) (mag3 (e.isoFaceArea celli)) ∧
      (mag3 (e.isoFaceArea celli) ≠ 0 → mag3 (getNormal e celli) = 1)) := by
  constructor
  · intro h
    refine ⟨?_, ?_, ?_⟩ <;> simp [getNormal, getSurfaceArea, getIsoFaceCentre, h]
  · intro h
    have hn : getNormal e celli =
        sdiv (e.isoFaceArea celli) (mag3 (e.isoFaceArea celli)) := by
      simp [getNormal, h]
    refine ⟨hn, fun hm => ?_⟩
    rw [hn]
    exact mag3_sdiv_self _ hm

/-- Witness for C10: cell 1 of `cutW` is uncut and gets the zero
normal; cell 0 is cut with unit area magnitude, so its normal is a unit
vector. -/
theorem C10_interface_accessors_witness :
    (cellIsCut cutW 1 = false ∧ getNormal cutW 1 = vzero) ∧
    (cellIsCut cutW 0 = true ∧ mag3 (cutW.isoFaceArea 0) ≠ 0 ∧
      mag3 (getNormal cutW 0) = 1) := by
  have h1 : cellIsCut cutW 1 = false := by simp [cellIsCut, cutW]
  have h0 : cellIsCut cutW 0 = true := by simp [cellIsCut, cutW]
  have hm : mag3 (cutW.isoFaceArea 0) ≠ 0 := by
    show Real.sqrt ((cutW.isoFaceArea 0).x ^ 2 + (cutW.isoFaceArea 0).y ^ 2 +
      (cutW.isoFaceArea 0).z ^ 2) ≠ 0
    rw [show ((cutW.isoFaceArea 0).x ^ 2 + (cutW.isoFaceArea 0).y ^ 2 +
        (cutW.isoFaceArea 0).z ^ 2 : ℝ) = 1 from by norm_num [cutW]]
    rw [Real.sqrt_one]
    norm_num
  exact ⟨⟨h1, ((C10_interface_accessors cutW 1).1 h1).1⟩,
    h0, hm, ((C10_interface_accessors cutW 0).2 h0).2 hm⟩

end IsoAdv
